import Mathlib

/-!
Shallow embedding of the learning-plan progression engine of the
Placementor backend (src/services/learning-plan.service.ts and
src/services/daily-plan.service.ts), together with proofs about its
creation, unlock, completion and duration-change operations.

Modelling conventions:
* Database rows are Lean structures; the set of `DailyPlan` rows of one
  learning plan is the list `LearningPlan.days` (Prisma enforces
  `@@unique([learningPlanId, dayNumber])`, so a day is addressed by its
  `dayNumber`; `findUnique` by row id on a day of the plan is modelled as
  `List.find?` on the day number).
* The requesting user is fixed per operation, so per-user relations are
  pre-restricted to that user exactly as the Prisma queries do:
  `Quiz.attempts` holds the requester's attempts (the source includes
  `attempts: { where: { userId } }`), `DailyPlan.mockInterview` is the
  requester's interview, and the `UserResource` table restricted to the
  requester is the list `userCompletedResources` of completed resource
  ids (unique per resource by `@@unique([userId, resourceId])`).
* `ApiError(status, message)` thrown by the source becomes the `error`
  branch of `Except ApiError`; a thrown error aborts the operation before
  any write, so an `error` result leaves the state unchanged.
* Dates (`startDate`, `endDate`, timestamps) and the `track` enum are not
  modelled: no verified property mentions them and they do not influence
  the day rows, `currentDay`, `progress` or `isActive`.
* JavaScript `Math.round` on a nonnegative number is `⌊x + 1/2⌋`, which
  is Mathlib's `round` on `ℚ`.
-/

namespace Placementor

/-- One quiz attempt of the requesting user; only `isCompleted` matters. -/
structure QuizAttempt where
  isCompleted : Bool
deriving Repr, DecidableEq

/-- A quiz attached to a daily plan, with the requester's attempts
(the source query includes `attempts: { where: { userId } }`). -/
structure Quiz where
  attempts : List QuizAttempt
deriving Repr, DecidableEq

/-- A mock interview attached to a daily plan for the requesting user. -/
structure MockInterview where
  isCompleted : Bool
deriving Repr, DecidableEq

/-- One `DailyPlan` row together with its included relations.
Resources are represented by their ids (`Nat`). -/
structure DailyPlan where
  dayNumber : Nat
  isUnlocked : Bool
  isCompleted : Bool
  learningResources : List Nat
  practiceResources : List Nat
  quiz : Option Quiz
  mockInterview : Option MockInterview
deriving Repr, DecidableEq

/-- One `LearningPlan` row with its `DailyPlan` rows.
`progress` is stored as an integer: every value the engine writes is the
result of `Math.round`. -/
structure LearningPlan where
  userId : Nat
  durationDays : Nat
  isActive : Bool
  currentDay : Nat
  progress : ℤ
  days : List DailyPlan
deriving Repr, DecidableEq

/-- The `ApiError(statusCode, message)` value from src/utils/api-error. -/
structure ApiError where
  status : Nat
  message : String
deriving Repr, DecidableEq

/-- Prisma `findUnique` on a daily plan of the plan, addressed by day number
(day numbers are unique per plan by the Prisma schema). -/
def findDay (plan : LearningPlan) (n : Nat) : Option DailyPlan :=
  plan.days.find? (fun d => d.dayNumber == n)

/-- Prisma update setting `isCompleted: true` on the day numbered `n`
(an update addressed by row id; by uniqueness of day numbers, at most one
row changes). -/
def setDayCompleted (days : List DailyPlan) (n : Nat) : List DailyPlan :=
  days.map (fun d => if d.dayNumber == n then { d with isCompleted := true } else d)

/-- Prisma updateMany setting `isUnlocked: true` on the days numbered `n`. -/
def setDayUnlocked (days : List DailyPlan) (n : Nat) : List DailyPlan :=
  days.map (fun d => if d.dayNumber == n then { d with isUnlocked := true } else d)

/-- The expression `Math.round((completedDaysCount / totalDays) * 100)` from
`completeDailyPlan`, over exact rationals. -/
def progressPercent (completedDaysCount totalDays : Nat) : ℤ :=
  round ((completedDaysCount : ℚ) / (totalDays : ℚ) * 100)

/-- The length `completedResources.length` in `completeDailyPlan`: the number of
`UserResource` rows of the requester whose `resourceId` is among the
day's learning and practice resources. -/
def completedResourcesCount (d : DailyPlan) (userCompletedResources : List Nat) : Nat :=
  (userCompletedResources.filter
    (fun r => (d.learningResources ++ d.practiceResources).contains r)).length

/-- The `allResourcesCompleted` gate of `completeDailyPlan`. -/
def allResourcesCompleted (d : DailyPlan) (userCompletedResources : List Nat) : Bool :=
  completedResourcesCount d userCompletedResources ==
    d.learningResources.length + d.practiceResources.length

/-- The `quizCompleted` gate of `completeDailyPlan`:
`!quiz || (attempts.length > 0 && attempts.some(a => a.isCompleted))`. -/
def quizCompleted (d : DailyPlan) : Bool :=
  match d.quiz with
  | none => true
  | some q => decide (0 < q.attempts.length) && q.attempts.any (fun a => a.isCompleted)

/-- The `interviewCompleted` gate of `completeDailyPlan`:
`!mockInterview || mockInterview.isCompleted`. -/
def interviewCompleted (d : DailyPlan) : Bool :=
  match d.mockInterview with
  | none => true
  | some mi => mi.isCompleted

/-- A fresh, empty daily-plan row as created by the engine
(`isUnlocked` as given, `isCompleted: false`, no attached relations). -/
def freshDay (n : Nat) (unlocked : Bool) : DailyPlan :=
  { dayNumber := n
    isUnlocked := unlocked
    isCompleted := false
    learningResources := []
    practiceResources := []
    quiz := none
    mockInterview := none }

namespace LearningPlanService

/-- Source `createLearningPlan` (learning-plan.service.ts): creates the plan with
`isActive: true, currentDay: 1, progress: 0` and one daily plan per day
`1..durationDays`, unlocked exactly when `day === 1`. -/
def createLearningPlan (userId durationDays : Nat) : LearningPlan :=
  { userId := userId
    durationDays := durationDays
    isActive := true
    currentDay := 1
    progress := 0
    days := (List.range durationDays).map (fun i => freshDay (i + 1) (i + 1 == 1)) }

/-- The `updateData` object of `updateLearningPlan`: optional new
`durationDays` and `isActive` (the `track` field has no effect on the
verified state and is omitted). -/
structure PlanUpdate where
  durationDays : Option Nat
  isActive : Option Bool
deriving Repr, DecidableEq

/-- A Prisma `learningPlan.update({ data: updateData })`: fields absent
from the update object are left unchanged. -/
def applyUpdate (plan : LearningPlan) (upd : PlanUpdate) : LearningPlan :=
  { plan with
    durationDays := upd.durationDays.getD plan.durationDays
    isActive := upd.isActive.getD plan.isActive }

/-- Source `handleDurationChange` (learning-plan.service.ts): updates the plan
fields, then appends fresh locked days `oldDuration+1..newDuration` when
the duration grows, or `deleteMany` of the days with
`dayNumber > newDuration` when it shrinks. `currentDay` is not touched. -/
def handleDurationChange (plan : LearningPlan) (oldDuration newDuration : Nat)
    (upd : PlanUpdate) : LearningPlan :=
  let updatedPlan := applyUpdate plan upd
  if oldDuration < newDuration then
    { updatedPlan with
      days := updatedPlan.days ++
        (List.range (newDuration - oldDuration)).map
          (fun i => freshDay (oldDuration + 1 + i) false) }
  else if newDuration < oldDuration then
    { updatedPlan with
      days := updatedPlan.days.filter (fun d => !(decide (newDuration < d.dayNumber))) }
  else
    updatedPlan

/-- Source `updateLearningPlan` (learning-plan.service.ts): ownership check, then
duration-change handling when `updateData.durationDays` is truthy and
differs from the stored duration, else a plain field update. -/
def updateLearningPlan (plan : LearningPlan) (userId : Nat) (upd : PlanUpdate) :
    Except ApiError LearningPlan :=
  if plan.userId != userId then
    .error ⟨403, "You do not have permission to update this learning plan"⟩
  else
    match upd.durationDays with
    | some newDuration =>
      if newDuration != 0 && newDuration != plan.durationDays then
        .ok (handleDurationChange plan plan.durationDays newDuration upd)
      else
        .ok (applyUpdate plan upd)
    | none => .ok (applyUpdate plan upd)

/-- The local `unlockDailyPlan` helper (learning-plan.service.ts):
`updateMany` setting `isUnlocked: true` on the day numbered `dayNumber`,
with no precondition. -/
def unlockDailyPlan (plan : LearningPlan) (dayNumber : Nat) : LearningPlan :=
  { plan with days := setDayUnlocked plan.days dayNumber }

/-- The `progressData` object of `updateLearningPlanProgress`. -/
structure ProgressUpdate where
  currentDay : Option Nat
  progress : Option ℤ
deriving Repr, DecidableEq

/-- Source `updateLearningPlanProgress` (learning-plan.service.ts): ownership
check; range validation of `currentDay`; when the given `currentDay` is
truthy and exceeds the stored one, the corresponding day is unlocked via
the ungated local helper; finally the plan fields are updated. -/
def updateLearningPlanProgress (plan : LearningPlan) (userId : Nat)
    (progressData : ProgressUpdate) : Except ApiError LearningPlan :=
  if plan.userId != userId then
    .error ⟨403, "You do not have permission to update this learning plan"⟩
  else if (match progressData.currentDay with
           | some cd => decide (cd < 1) || decide (plan.durationDays < cd)
           | none => false) then
    .error ⟨400, "Current day must be between 1 and " ++ toString plan.durationDays⟩
  else
    let plan1 := match progressData.currentDay with
      | some cd =>
        if cd != 0 && plan.currentDay < cd then unlockDailyPlan plan cd else plan
      | none => plan
    .ok { plan1 with
      currentDay := progressData.currentDay.getD plan1.currentDay
      progress := progressData.progress.getD plan1.progress }

end LearningPlanService

namespace DailyPlanService

/-- Source `unlockDailyPlan` (daily-plan.service.ts): lookup, ownership check,
previous-day-completed gate for days after day 1, then unlock. -/
def unlockDailyPlan (plan : LearningPlan) (dayId userId : Nat) :
    Except ApiError LearningPlan :=
  match findDay plan dayId with
  | none => .error ⟨404, "Daily plan not found"⟩
  | some dailyPlan =>
    if plan.userId != userId then
      .error ⟨403, "You do not have permission to update this daily plan"⟩
    else if 1 < dailyPlan.dayNumber then
      match plan.days.find? (fun d => d.dayNumber == dailyPlan.dayNumber - 1) with
      | some previousDay =>
        if !previousDay.isCompleted then
          .error ⟨400, "Cannot unlock this day until the previous day is completed"⟩
        else
          .ok { plan with days := setDayUnlocked plan.days dailyPlan.dayNumber }
      | none =>
        .ok { plan with days := setDayUnlocked plan.days dailyPlan.dayNumber }
    else
      .ok { plan with days := setDayUnlocked plan.days dailyPlan.dayNumber }

/-- Source `completeDailyPlan` (daily-plan.service.ts): lookup, ownership check,
locked-day gate, combined resources/quiz/interview gate, then one
transaction marking the day completed, unlocking the next day when one
exists inside the duration, and recomputing `progress`, `currentDay` and
`isActive` from the completed-day count. -/
def completeDailyPlan (plan : LearningPlan) (dayId userId : Nat)
    (userCompletedResources : List Nat) : Except ApiError LearningPlan :=
  match findDay plan dayId with
  | none => .error ⟨404, "Daily plan not found"⟩
  | some dailyPlan =>
    if plan.userId != userId then
      .error ⟨403, "You do not have permission to update this daily plan"⟩
    else if !dailyPlan.isUnlocked then
      .error ⟨400, "Cannot complete a locked daily plan"⟩
    else if !allResourcesCompleted dailyPlan userCompletedResources ||
            !quizCompleted dailyPlan || !interviewCompleted dailyPlan then
      .error ⟨400, "All resources, quizzes, and interviews must be completed"⟩
    else
      let days1 := setDayCompleted plan.days dailyPlan.dayNumber
      let days2 :=
        if dailyPlan.dayNumber < plan.durationDays then
          setDayUnlocked days1 (dailyPlan.dayNumber + 1)
        else days1
      let totalDays := plan.durationDays
      let completedDaysCount := days2.countP (fun d => d.isCompleted)
      .ok { plan with
        days := days2
        progress := progressPercent completedDaysCount totalDays
        currentDay := min (dailyPlan.dayNumber + 1) totalDays
        isActive := decide (completedDaysCount < totalDays) }

end DailyPlanService

/-- Well-formed day set: the day numbers of the plan's rows are exactly
`1, 2, ..., durationDays` in order — the shape `createLearningPlan`
establishes and duration changes preserve. -/
def WF (plan : LearningPlan) : Prop :=
  plan.days.map DailyPlan.dayNumber = List.range' 1 plan.durationDays

instance (plan : LearningPlan) : Decidable (WF plan) := by
  unfold WF; infer_instance

/-! ### Basic lemmas about the embedding -/

/-- Closed form of the progress computation: for a positive total,
`Math.round((c / t) * 100)` is the natural number `(200 c + t) / (2 t)`. -/
theorem progressPercent_eq (c t : Nat) (h : 0 < t) :
    progressPercent c t = ((200 * c + t) / (2 * t) : ℕ) := by
  unfold progressPercent
  rw [round_eq]
  have key : ((c : ℚ) / (t : ℚ) * 100) + 1/2 = ((200 * c + t : ℕ) : ℚ) / ((2 * t : ℕ) : ℚ) := by
    have ht : (t : ℚ) ≠ 0 := by positivity
    push_cast
    field_simp
    ring
  rw [key, Rat.floor_natCast_div_natCast]
  norm_cast

/-- Completing every day yields progress 100. -/
theorem progressPercent_total (t : Nat) (h : 0 < t) : progressPercent t t = 100 := by
  rw [progressPercent_eq t t h]
  have : (200 * t + t) / (2 * t) = 100 := by
    have h1 : 200 * t + t = t + (2 * t) * 100 := by ring
    rw [h1, Nat.add_mul_div_left _ _ (by omega), Nat.div_eq_of_lt (by omega)]
  rw [this]
  norm_num

/-- A `find?` on a day-number query commutes with a map that preserves
day numbers. -/
theorem find?_map_of_preserves (l : List DailyPlan) (f : DailyPlan → DailyPlan) (n : Nat)
    (hf : ∀ d, (f d).dayNumber = d.dayNumber) :
    (l.map f).find? (fun d => d.dayNumber == n) =
      (l.find? (fun d => d.dayNumber == n)).map f := by
  have hp : ((fun d => d.dayNumber == n) ∘ f) = (fun d => d.dayNumber == n) := by
    funext d
    simp [Function.comp, hf]
  rw [List.find?_map f l, hp]

theorem setDayCompleted_dayNumber (n : Nat) (d : DailyPlan) :
    ((fun d => if d.dayNumber == n then { d with isCompleted := true } else d) d).dayNumber
      = d.dayNumber := by
  by_cases h : d.dayNumber == n <;> simp [h]

theorem setDayUnlocked_dayNumber (n : Nat) (d : DailyPlan) :
    ((fun d => if d.dayNumber == n then { d with isUnlocked := true } else d) d).dayNumber
      = d.dayNumber := by
  by_cases h : d.dayNumber == n <;> simp [h]

/-- Find after a completion update. -/
theorem find?_setDayCompleted (days : List DailyPlan) (m n : Nat) :
    (setDayCompleted days m).find? (fun d => d.dayNumber == n) =
      (days.find? (fun d => d.dayNumber == n)).map
        (fun d => if d.dayNumber == m then { d with isCompleted := true } else d) :=
  find?_map_of_preserves days _ n (setDayCompleted_dayNumber m)

/-- Find after an unlock update. -/
theorem find?_setDayUnlocked (days : List DailyPlan) (m n : Nat) :
    (setDayUnlocked days m).find? (fun d => d.dayNumber == n) =
      (days.find? (fun d => d.dayNumber == n)).map
        (fun d => if d.dayNumber == m then { d with isUnlocked := true } else d) :=
  find?_map_of_preserves days _ n (setDayUnlocked_dayNumber m)

/-- Unlocking a day does not change the number of completed days. -/
theorem countP_setDayUnlocked (days : List DailyPlan) (m : Nat) :
    (setDayUnlocked days m).countP (fun d => d.isCompleted) =
      days.countP (fun d => d.isCompleted) := by
  unfold setDayUnlocked
  rw [List.countP_map]
  congr 1
  funext d
  by_cases h : d.dayNumber == m <;> simp [h, Function.comp]

/-- In a well-formed plan, every day number in `1..durationDays` is
present, and `findDay` returns a row with that number. -/
theorem WF.findDay_exists {plan : LearningPlan} (hwf : WF plan) {n : Nat}
    (h1 : 1 ≤ n) (h2 : n ≤ plan.durationDays) :
    ∃ d, findDay plan n = some d ∧ d.dayNumber = n := by
  have hmem : n ∈ plan.days.map DailyPlan.dayNumber := by
    rw [hwf]
    exact List.mem_range'_1.mpr ⟨h1, by omega⟩
  obtain ⟨d, hdmem, hdn⟩ := List.mem_map.mp hmem
  have hsome : (plan.days.find? (fun d => d.dayNumber == n)).isSome :=
    List.find?_isSome.mpr ⟨d, hdmem, by simp [hdn]⟩
  obtain ⟨d', hd'⟩ := Option.isSome_iff_exists.mp hsome
  exact ⟨d', hd', by simpa using List.find?_some hd'⟩

/-- In a well-formed plan there are exactly `durationDays` day rows. -/
theorem WF.days_length {plan : LearningPlan} (hwf : WF plan) :
    plan.days.length = plan.durationDays := by
  have := congrArg List.length hwf
  simpa using this

/-- In a well-formed plan every day number is at most `durationDays`. -/
theorem WF.dayNumber_le {plan : LearningPlan} (hwf : WF plan) {d : DailyPlan}
    (hd : d ∈ plan.days) : 1 ≤ d.dayNumber ∧ d.dayNumber ≤ plan.durationDays := by
  have hmem : d.dayNumber ∈ plan.days.map DailyPlan.dayNumber := List.mem_map_of_mem _ hd
  rw [hwf] at hmem
  have := List.mem_range'_1.mp hmem
  omega

/-- A `find?` commutes with a filter that keeps everything the query can
match. -/
theorem find?_filter_of_imp (l : List DailyPlan) (p q : DailyPlan → Bool)
    (h : ∀ x, p x = true → q x = true) :
    (l.filter q).find? p = l.find? p := by
  induction l with
  | nil => rfl
  | cons a t ih =>
    by_cases hp : p a = true
    · have hq := h a hp
      simp [List.filter_cons, hq, List.find?_cons, hp]
    · have hp' : p a = false := by simpa using hp
      by_cases hq : q a = true
      · simp [List.filter_cons, hq, List.find?_cons, hp', ih]
      · have hq' : q a = false := by simpa using hq
        simp [List.filter_cons, hq', List.find?_cons, hp', ih]

/-! ### C1: plan creation -/

/-- C1: For every durationDays ≥ 1, `createLearningPlan` creates exactly
`durationDays` DailyPlan rows whose `dayNumber` values form the contiguous
range `1..durationDays`; exactly the row with `dayNumber` 1 has
`isUnlocked = true`, and every row has `isCompleted = false`. -/
theorem createLearningPlan_days_spec (userId durationDays : Nat)
    (h : 1 ≤ durationDays) :
    (LearningPlanService.createLearningPlan userId durationDays).days.length = durationDays ∧
    (LearningPlanService.createLearningPlan userId durationDays).days.map DailyPlan.dayNumber
      = List.range' 1 durationDays ∧
    ∀ d ∈ (LearningPlanService.createLearningPlan userId durationDays).days,
      (d.isUnlocked = true ↔ d.dayNumber = 1) ∧ d.isCompleted = false := by
  refine ⟨by simp [LearningPlanService.createLearningPlan], ?_, ?_⟩
  · simp only [LearningPlanService.createLearningPlan, List.map_map]
    rw [List.range'_eq_map_range]
    apply List.map_congr_left
    intro i _
    simp [freshDay, Nat.add_comm]
  · intro d hd
    simp only [LearningPlanService.createLearningPlan, List.mem_map,
      List.mem_range] at hd
    obtain ⟨i, _, rfl⟩ := hd
    simp [freshDay]

/-- C1 witness at durationDays = 3. -/
theorem createLearningPlan_days_spec_witness :
    (LearningPlanService.createLearningPlan 7 3).days.length = 3 ∧
    (LearningPlanService.createLearningPlan 7 3).days.map DailyPlan.dayNumber
      = List.range' 1 3 ∧
    ∀ d ∈ (LearningPlanService.createLearningPlan 7 3).days,
      (d.isUnlocked = true ↔ d.dayNumber = 1) ∧ d.isCompleted = false :=
  createLearningPlan_days_spec 7 3 (by decide)

/-! ### The success path of `completeDailyPlan` -/

/-- Day rows after the `completeDailyPlan` transaction on the day `d`:
the day is marked completed, and the next day is unlocked when `d` is
not the last day. -/
def completeDays (plan : LearningPlan) (d : DailyPlan) : List DailyPlan :=
  if d.dayNumber < plan.durationDays then
    setDayUnlocked (setDayCompleted plan.days d.dayNumber) (d.dayNumber + 1)
  else
    setDayCompleted plan.days d.dayNumber

/-- Characterization of a successful `completeDailyPlan`: with the
ownership, unlock and gate checks all passing, the call returns the
transaction's final state. -/
theorem completeDailyPlan_ok {plan : LearningPlan} {d : DailyPlan} {dayId userId : Nat}
    {ucr : List Nat}
    (hfind : findDay plan dayId = some d)
    (howner : plan.userId = userId)
    (hunl : d.isUnlocked = true)
    (hres : allResourcesCompleted d ucr = true)
    (hquiz : quizCompleted d = true)
    (hint : interviewCompleted d = true) :
    DailyPlanService.completeDailyPlan plan dayId userId ucr =
      .ok { plan with
        days := completeDays plan d
        progress := progressPercent ((completeDays plan d).countP (fun x => x.isCompleted))
          plan.durationDays
        currentDay := min (d.dayNumber + 1) plan.durationDays
        isActive := decide ((completeDays plan d).countP (fun x => x.isCompleted)
          < plan.durationDays) } := by
  unfold DailyPlanService.completeDailyPlan
  rw [hfind]
  simp only [howner, bne_self_eq_false, Bool.false_eq_true, if_false, hunl, hres, hquiz, hint,
    Bool.not_true, Bool.or_self, Bool.false_or, Bool.or_false]
  rw [completeDays]

/-! ### C2: completing a non-final day -/

/-- C2: After a successful `completeDailyPlan` on day N < durationDays:
day N is completed, day N+1 is unlocked, `currentDay = N+1`, and
`progress = round(100 × completedDaysCount / durationDays)` with
`completedDaysCount` the number of completed days after the update. -/
theorem completeDailyPlan_advances_day (plan : LearningPlan) (userId n : Nat)
    (ucr : List Nat) (d : DailyPlan)
    (hwf : WF plan)
    (hfind : findDay plan n = some d)
    (howner : plan.userId = userId)
    (hunl : d.isUnlocked = true)
    (hres : allResourcesCompleted d ucr = true)
    (hquiz : quizCompleted d = true)
    (hint : interviewCompleted d = true)
    (hlt : n < plan.durationDays) :
    ∃ plan', DailyPlanService.completeDailyPlan plan n userId ucr = .ok plan' ∧
      (findDay plan' n).map DailyPlan.isCompleted = some true ∧
      (findDay plan' (n + 1)).map DailyPlan.isUnlocked = some true ∧
      plan'.currentDay = n + 1 ∧
      plan'.progress =
        progressPercent (plan'.days.countP (fun x => x.isCompleted)) plan.durationDays := by
  have hdn : d.dayNumber = n := by
    unfold findDay at hfind
    simpa using List.find?_some hfind
  have hcd : completeDays plan d = setDayUnlocked (setDayCompleted plan.days n) (n + 1) := by
    unfold completeDays
    rw [hdn, if_pos hlt]
  have hne : (n == n + 1) = false := beq_eq_false_iff_ne.mpr (by omega)
  have hfind' : plan.days.find? (fun x => x.dayNumber == n) = some d := hfind
  refine ⟨_, completeDailyPlan_ok hfind howner hunl hres hquiz hint, ?_, ?_, ?_, rfl⟩
  · simp only [findDay, hcd, find?_setDayUnlocked, find?_setDayCompleted, hfind',
      Option.map_some]
    simp [hdn, hne]
  · obtain ⟨d2, hd2, hd2n⟩ := hwf.findDay_exists (n := n + 1) (by omega) (by omega)
    have hd2' : plan.days.find? (fun x => x.dayNumber == n + 1) = some d2 := hd2
    have hne2 : (n + 1 == n) = false := beq_eq_false_iff_ne.mpr (by omega)
    simp only [findDay, hcd, find?_setDayUnlocked, find?_setDayCompleted, hd2',
      Option.map_some]
    simp [hd2n, hne2]
  · show min (d.dayNumber + 1) plan.durationDays = n + 1
    rw [hdn]
    exact Nat.min_eq_left (by omega)

/-- C2 witness: a fresh two-day plan, completing day 1. -/
theorem completeDailyPlan_advances_day_witness :
    ∃ plan', DailyPlanService.completeDailyPlan
        (LearningPlanService.createLearningPlan 0 2) 1 0 [] = .ok plan' ∧
      (findDay plan' 1).map DailyPlan.isCompleted = some true ∧
      (findDay plan' 2).map DailyPlan.isUnlocked = some true ∧
      plan'.currentDay = 2 ∧
      plan'.progress =
        progressPercent (plan'.days.countP (fun x => x.isCompleted)) 2 :=
  completeDailyPlan_advances_day (LearningPlanService.createLearningPlan 0 2) 0 1 []
    (freshDay 1 true) (by decide) (by decide) rfl rfl (by decide) (by decide) (by decide)
    (by decide)

/-! ### C6: completion of a locked day fails -/

/-- C6: If the day is locked, `completeDailyPlan` fails with the
InvalidState error, regardless of the resource, quiz and interview
state, and produces no new state. -/
theorem completeDailyPlan_locked_fails (plan : LearningPlan) (userId n : Nat)
    (ucr : List Nat) (d : DailyPlan)
    (hfind : findDay plan n = some d)
    (howner : plan.userId = userId)
    (hlocked : d.isUnlocked = false) :
    DailyPlanService.completeDailyPlan plan n userId ucr =
      .error ⟨400, "Cannot complete a locked daily plan"⟩ := by
  unfold DailyPlanService.completeDailyPlan
  rw [hfind]
  simp [howner, hlocked]

/-- C6 witness: day 2 of a fresh two-day plan is locked even though all
its (empty) gates hold. -/
theorem completeDailyPlan_locked_fails_witness :
    DailyPlanService.completeDailyPlan (LearningPlanService.createLearningPlan 3 2) 2 3 [] =
      .error ⟨400, "Cannot complete a locked daily plan"⟩ :=
  completeDailyPlan_locked_fails (LearningPlanService.createLearningPlan 3 2) 3 2 []
    (freshDay 2 false) (by decide) (by decide) (by decide)

/-! ### C7: gate evaluation order and reported errors -/

/-- C7 (amended): the lock check runs first and reports its own error;
the resources, quiz and interview checks are evaluated together and any
failure among them reports the single combined error. -/
theorem completeDailyPlan_gate_order (plan : LearningPlan) (userId n : Nat)
    (ucr : List Nat) (d : DailyPlan)
    (hfind : findDay plan n = some d)
    (howner : plan.userId = userId) :
    (d.isUnlocked = false →
      DailyPlanService.completeDailyPlan plan n userId ucr =
        .error ⟨400, "Cannot complete a locked daily plan"⟩) ∧
    (d.isUnlocked = true →
      (allResourcesCompleted d ucr = false ∨ quizCompleted d = false ∨
        interviewCompleted d = false) →
      DailyPlanService.completeDailyPlan plan n userId ucr =
        .error ⟨400, "All resources, quizzes, and interviews must be completed"⟩) := by
  constructor
  · intro hlocked
    exact completeDailyPlan_locked_fails plan userId n ucr d hfind howner hlocked
  · intro hunl hor
    unfold DailyPlanService.completeDailyPlan
    rw [hfind]
    rcases hor with h | h | h <;> simp [howner, hunl, h]

/-- A day whose only failing gate is the quiz. -/
def dayQuizFail : DailyPlan := { freshDay 1 true with quiz := some { attempts := [] } }

/-- A one-day plan around `dayQuizFail`. -/
def planQuizFail : LearningPlan :=
  { userId := 0, durationDays := 1, isActive := true, currentDay := 1, progress := 0,
    days := [dayQuizFail] }

/-- A day whose only failing gate is the resource check. -/
def dayResFail : DailyPlan := { freshDay 1 true with learningResources := [5] }

/-- A one-day plan around `dayResFail`. -/
def planResFail : LearningPlan :=
  { userId := 0, durationDays := 1, isActive := true, currentDay := 1, progress := 0,
    days := [dayResFail] }

/-- C7 counterexample: one input fails only the quiz gate and another
fails only the resource gate, yet both receive the identical combined
error, so the reported error does not identify the failing gate. -/
theorem completeDailyPlan_gate_error_counterexample :
    quizCompleted dayQuizFail = false ∧
    allResourcesCompleted dayQuizFail [] = true ∧
    interviewCompleted dayQuizFail = true ∧
    allResourcesCompleted dayResFail [] = false ∧
    quizCompleted dayResFail = true ∧
    interviewCompleted dayResFail = true ∧
    DailyPlanService.completeDailyPlan planQuizFail 1 0 [] =
      .error ⟨400, "All resources, quizzes, and interviews must be completed"⟩ ∧
    DailyPlanService.completeDailyPlan planResFail 1 0 [] =
      .error ⟨400, "All resources, quizzes, and interviews must be completed"⟩ :=
  ⟨by decide, by decide, by decide, by decide, by decide, by decide, rfl, rfl⟩

/-- C7 witness for the amended theorem: the lock error on a locked day,
and the combined error on an unlocked day failing only the quiz gate. -/
theorem completeDailyPlan_gate_order_witness :
    (DailyPlanService.completeDailyPlan planQuizFail 1 0 [] =
      .error ⟨400, "All resources, quizzes, and interviews must be completed"⟩) :=
  (completeDailyPlan_gate_order planQuizFail 0 1 [] dayQuizFail (by decide) (by decide)).2
    (by decide) (Or.inr (Or.inl (by decide)))

/-! ### C10: no already-completed guard -/

/-- C10: `completeDailyPlan` has no not-already-completed precondition:
on an already-completed day whose gates hold it succeeds, setting
`currentDay` to `min(N+1, durationDays)`; when a later day had advanced
`currentDay` beyond `N+1`, the call strictly decreases `currentDay`. -/
theorem completeDailyPlan_recompletion (plan : LearningPlan) (userId n : Nat)
    (ucr : List Nat) (d : DailyPlan)
    (hfind : findDay plan n = some d)
    (howner : plan.userId = userId)
    (hunl : d.isUnlocked = true)
    (hdone : d.isCompleted = true)
    (hres : allResourcesCompleted d ucr = true)
    (hquiz : quizCompleted d = true)
    (hint : interviewCompleted d = true) :
    ∃ plan', DailyPlanService.completeDailyPlan plan n userId ucr = .ok plan' ∧
      plan'.currentDay = min (n + 1) plan.durationDays ∧
      (n + 1 < plan.currentDay → plan'.currentDay < plan.currentDay) := by
  have hdn : d.dayNumber = n := by
    unfold findDay at hfind
    simpa using List.find?_some hfind
  refine ⟨_, completeDailyPlan_ok hfind howner hunl hres hquiz hint, ?_, ?_⟩
  · show min (d.dayNumber + 1) plan.durationDays = min (n + 1) plan.durationDays
    rw [hdn]
  · intro hlt
    show min (d.dayNumber + 1) plan.durationDays < plan.currentDay
    rw [hdn]
    exact lt_of_le_of_lt (Nat.min_le_left _ _) hlt

/-- A three-day plan where days 1 and 2 are completed and `currentDay`
has advanced to 3. -/
def planRecomplete : LearningPlan :=
  { userId := 0, durationDays := 3, isActive := true, currentDay := 3, progress := 67,
    days := [{ freshDay 1 true with isCompleted := true },
             { freshDay 2 true with isCompleted := true },
             freshDay 3 true] }

/-- C10 witness: re-completing day 1 of `planRecomplete` succeeds and
moves `currentDay` from 3 back to 2. -/
theorem completeDailyPlan_recompletion_witness :
    ∃ plan', DailyPlanService.completeDailyPlan planRecomplete 1 0 [] = .ok plan' ∧
      plan'.currentDay = min 2 3 ∧
      (2 < 3 → plan'.currentDay < 3) :=
  completeDailyPlan_recompletion planRecomplete 0 1 []
    { freshDay 1 true with isCompleted := true }
    (by decide) (by decide) (by decide) (by decide) (by decide) (by decide) (by decide)

/-! ### C5: unlock requires the previous day completed -/

/-- C5: For a day N > 1 owned by the requester, `unlockDailyPlan` fails
with the InvalidState error (producing no new state, so no day's
`isUnlocked` changes) when day N−1 is not completed, and succeeds,
unlocking day N, when day N−1 is completed. -/
theorem unlockDailyPlan_prev_gate (plan : LearningPlan) (userId n : Nat) (d p : DailyPlan)
    (hfind : findDay plan n = some d)
    (howner : plan.userId = userId)
    (hn : 1 < n)
    (hprev : plan.days.find? (fun x => x.dayNumber == n - 1) = some p) :
    (p.isCompleted = false →
      DailyPlanService.unlockDailyPlan plan n userId =
        .error ⟨400, "Cannot unlock this day until the previous day is completed"⟩) ∧
    (p.isCompleted = true →
      DailyPlanService.unlockDailyPlan plan n userId =
        .ok { plan with days := setDayUnlocked plan.days n }) := by
  have hdn : d.dayNumber = n := by
    unfold findDay at hfind
    simpa using List.find?_some hfind
  constructor <;> intro hp <;>
  · unfold DailyPlanService.unlockDailyPlan
    rw [hfind]
    simp [howner, hdn, hn, hprev, hp]

/-- C5 witness: in a fresh two-day plan, unlocking day 2 fails while day 1
is not completed, and succeeds once it is. -/
theorem unlockDailyPlan_prev_gate_witness :
    ((freshDay 1 true).isCompleted = false →
      DailyPlanService.unlockDailyPlan (LearningPlanService.createLearningPlan 1 2) 2 1 =
        .error ⟨400, "Cannot unlock this day until the previous day is completed"⟩) ∧
    ((freshDay 1 true).isCompleted = true →
      DailyPlanService.unlockDailyPlan (LearningPlanService.createLearningPlan 1 2) 2 1 =
        .ok { LearningPlanService.createLearningPlan 1 2 with
          days := setDayUnlocked (LearningPlanService.createLearningPlan 1 2).days 2 }) :=
  unlockDailyPlan_prev_gate (LearningPlanService.createLearningPlan 1 2) 1 2
    (freshDay 2 false) (freshDay 1 true) (by decide) (by decide) (by decide) (by decide)

/-! ### C9: progress updates unlock without the previous-day gate -/

/-- C9: An owner's `updateLearningPlanProgress` with a valid `currentDay`
strictly greater than the stored one succeeds and leaves that day
unlocked — with no hypothesis on day `currentDay − 1`, so the
previous-day-completed gate of `unlockDailyPlan` is not applied. -/
theorem updateLearningPlanProgress_unlocks (plan : LearningPlan) (userId cd : Nat)
    (pr : Option ℤ) (d : DailyPlan)
    (howner : plan.userId = userId)
    (h1 : 1 ≤ cd) (h2 : cd ≤ plan.durationDays)
    (hgt : plan.currentDay < cd)
    (hfind : findDay plan cd = some d) :
    ∃ plan', LearningPlanService.updateLearningPlanProgress plan userId ⟨some cd, pr⟩ =
        .ok plan' ∧
      (findDay plan' cd).map DailyPlan.isUnlocked = some true ∧
      plan'.currentDay = cd := by
  have hdn : d.dayNumber = cd := by
    unfold findDay at hfind
    simpa using List.find?_some hfind
  have hfind' : plan.days.find? (fun x => x.dayNumber == cd) = some d := hfind
  have hc1 : ¬ (cd < 1) := by omega
  have hc2 : ¬ (plan.durationDays < cd) := by omega
  have hcz : (cd != 0) = true := by simpa using by omega
  refine ⟨{ LearningPlanService.unlockDailyPlan plan cd with
      currentDay := cd, progress := pr.getD plan.progress }, ?_, ?_, rfl⟩
  · unfold LearningPlanService.updateLearningPlanProgress
    simp [howner, hc1, hc2, hcz, hgt, LearningPlanService.unlockDailyPlan]
  · simp only [findDay, LearningPlanService.unlockDailyPlan, find?_setDayUnlocked, hfind',
      Option.map_some]
    simp [hdn]

/-- C9 witness: in a fresh two-day plan (day 1 not completed, day 2
locked), setting `currentDay := 2` unlocks day 2. -/
theorem updateLearningPlanProgress_unlocks_witness :
    ∃ plan', LearningPlanService.updateLearningPlanProgress
        (LearningPlanService.createLearningPlan 4 2) 4 ⟨some 2, none⟩ = .ok plan' ∧
      (findDay plan' 2).map DailyPlan.isUnlocked = some true ∧
      plan'.currentDay = 2 :=
  updateLearningPlanProgress_unlocks (LearningPlanService.createLearningPlan 4 2) 4 2 none
    (freshDay 2 false) (by decide) (by decide) (by decide) (by decide) (by decide)

/-! ### C3: the currentDay ≤ durationDays invariant -/

/-- A two-day plan satisfying `currentDay ≤ durationDays`, about to have
its duration reduced below `currentDay`. -/
def planShrink : LearningPlan :=
  { userId := 0, durationDays := 2, isActive := true, currentDay := 2, progress := 50,
    days := [{ freshDay 1 true with isCompleted := true }, freshDay 2 true] }

/-- The state `updateLearningPlan` produces for `planShrink` when the
duration is changed to 1: `currentDay` stays 2 while `durationDays`
becomes 1. -/
def planShrunk : LearningPlan :=
  { userId := 0, durationDays := 1, isActive := true, currentDay := 2, progress := 50,
    days := [{ freshDay 1 true with isCompleted := true }] }

/-- C3 counterexample: `updateLearningPlan` with a duration decrease below
the stored `currentDay` succeeds but leaves `currentDay > durationDays`,
so the invariant is not preserved by every engine operation. -/
theorem updateLearningPlan_invariant_counterexample :
    planShrink.currentDay ≤ planShrink.durationDays ∧
    LearningPlanService.updateLearningPlan planShrink 0 ⟨some 1, none⟩ = .ok planShrunk ∧
    planShrunk.durationDays < planShrunk.currentDay :=
  ⟨by decide, rfl, by decide⟩

/-- C3 (amended): `completeDailyPlan` and `updateLearningPlanProgress`
always preserve `currentDay ≤ durationDays`; `updateLearningPlan`
preserves it provided any requested new duration is at least the stored
`currentDay` — a duration decrease below `currentDay` violates it. -/
theorem engine_preserves_currentDay_le (plan : LearningPlan) (userId n : Nat)
    (ucr : List Nat) (pd : LearningPlanService.ProgressUpdate)
    (upd : LearningPlanService.PlanUpdate) (planA planB planC : LearningPlan)
    (hinv : plan.currentDay ≤ plan.durationDays)
    (hnd : upd.durationDays.all (fun nd => decide (plan.currentDay ≤ nd)) = true) :
    (DailyPlanService.completeDailyPlan plan n userId ucr = .ok planA →
      planA.currentDay ≤ planA.durationDays) ∧
    (LearningPlanService.updateLearningPlanProgress plan userId pd = .ok planB →
      planB.currentDay ≤ planB.durationDays) ∧
    (LearningPlanService.updateLearningPlan plan userId upd = .ok planC →
      planC.currentDay ≤ planC.durationDays) := by
  refine ⟨?_, ?_, ?_⟩
  · intro hok
    unfold DailyPlanService.completeDailyPlan at hok
    cases hfd : findDay plan n with
    | none => rw [hfd] at hok; exact absurd hok (by simp)
    | some d =>
      rw [hfd] at hok
      dsimp only at hok
      by_cases h1 : (plan.userId != userId) = true
      · rw [if_pos h1] at hok; exact absurd hok (by simp)
      · rw [if_neg h1] at hok
        by_cases h2 : (!d.isUnlocked) = true
        · rw [if_pos h2] at hok; exact absurd hok (by simp)
        · rw [if_neg h2] at hok
          by_cases h3 : (!allResourcesCompleted d ucr || !quizCompleted d ||
              !interviewCompleted d) = true
          · rw [if_pos h3] at hok; exact absurd hok (by simp)
          · rw [if_neg h3] at hok
            rw [Except.ok.injEq] at hok
            rw [← hok]
            exact Nat.min_le_right _ _
  · intro hok
    unfold LearningPlanService.updateLearningPlanProgress at hok
    by_cases h1 : (plan.userId != userId) = true
    · rw [if_pos h1] at hok; exact absurd hok (by simp)
    · rw [if_neg h1] at hok
      by_cases h2 : (match pd.currentDay with
          | some cd => decide (cd < 1) || decide (plan.durationDays < cd)
          | none => false) = true
      · rw [if_pos h2] at hok; exact absurd hok (by simp)
      · rw [if_neg h2] at hok
        rw [Except.ok.injEq] at hok
        rw [← hok]
        cases hcd : pd.currentDay with
        | none => simpa [hcd] using hinv
        | some cd =>
          rw [hcd] at h2
          simp only [decide_eq_true_eq, Bool.or_eq_true, not_or] at h2
          have hle : cd ≤ plan.durationDays := by omega
          by_cases hu : (cd != 0 && decide (plan.currentDay < cd)) = true
          · simpa [hcd, hu, LearningPlanService.unlockDailyPlan] using hle
          · simpa [hcd, hu] using hle
  · intro hok
    unfold LearningPlanService.updateLearningPlan at hok
    by_cases h1 : (plan.userId != userId) = true
    · rw [if_pos h1] at hok; exact absurd hok (by simp)
    · rw [if_neg h1] at hok
      cases hd : upd.durationDays with
      | none =>
        rw [hd] at hok
        rw [Except.ok.injEq] at hok
        rw [← hok]
        simpa [LearningPlanService.applyUpdate, hd] using hinv
      | some nd =>
        have hcd : plan.currentDay ≤ nd := by
          rw [hd] at hnd
          simpa using hnd
        rw [hd] at hok
        dsimp only at hok
        by_cases h2 : (nd != 0 && nd != plan.durationDays) = true
        · rw [if_pos h2] at hok
          rw [Except.ok.injEq] at hok
          rw [← hok]
          simp only [LearningPlanService.handleDurationChange, LearningPlanService.applyUpdate]
          split_ifs <;> simpa [hd] using hcd
        · rw [if_neg h2] at hok
          rw [Except.ok.injEq] at hok
          rw [← hok]
          simpa [LearningPlanService.applyUpdate, hd] using hcd

/-- C3 witness for the amended theorem, on `planRecomplete` with a valid
duration update. -/
theorem engine_preserves_currentDay_le_witness :
    (DailyPlanService.completeDailyPlan planRecomplete 1 0 [] = .ok planRecomplete →
      planRecomplete.currentDay ≤ planRecomplete.durationDays) ∧
    (LearningPlanService.updateLearningPlanProgress planRecomplete 0 ⟨some 3, none⟩ =
        .ok planRecomplete →
      planRecomplete.currentDay ≤ planRecomplete.durationDays) ∧
    (LearningPlanService.updateLearningPlan planRecomplete 0 ⟨some 5, none⟩ =
        .ok planRecomplete →
      planRecomplete.currentDay ≤ planRecomplete.durationDays) :=
  engine_preserves_currentDay_le planRecomplete 0 1 [] ⟨some 3, none⟩ ⟨some 5, none⟩
    planRecomplete planRecomplete planRecomplete (by decide) (by decide)

/-! ### C4: completing the last day -/

/-- A two-day plan where day 2 was unlocked (reachable through the
ungated `updateLearningPlanProgress` unlock) while day 1 is still
incomplete. -/
def planLastSkip : LearningPlan :=
  { userId := 0, durationDays := 2, isActive := true, currentDay := 2, progress := 0,
    days := [freshDay 1 true, freshDay 2 true] }

/-- The state `completeDailyPlan` produces when day 2 of `planLastSkip`
is completed: only one of the two days is complete. -/
def planLastSkipDone : LearningPlan :=
  { userId := 0, durationDays := 2, isActive := true, currentDay := 2,
    progress := progressPercent 1 2,
    days := [freshDay 1 true, { freshDay 2 true with isCompleted := true }] }

/-- C4 counterexample: completing the day with `dayNumber = durationDays`
succeeds while day 1 is incomplete, leaving `isActive = true` and
`progress = 50 ≠ 100`. -/
theorem completeDailyPlan_last_day_counterexample :
    planLastSkip.durationDays = 2 ∧
    DailyPlanService.completeDailyPlan planLastSkip 2 0 [] = .ok planLastSkipDone ∧
    planLastSkipDone.isActive = true ∧
    planLastSkipDone.progress = 50 ∧
    (50 : ℤ) ≠ 100 :=
  ⟨by decide, rfl, by decide, by
    show progressPercent 1 2 = 50
    rw [progressPercent_eq 1 2 (by norm_num)]
    norm_num, by decide⟩

/-- C4 (amended): after a successful `completeDailyPlan` on the day with
`dayNumber = durationDays`, `isActive = false` and `progress = 100`
provided every other day of the plan is already completed; in general the
code sets `isActive = (completedDaysCount < durationDays)` and
`progress = round(100 × completedDaysCount / durationDays)`. -/
theorem completeDailyPlan_last_day (plan : LearningPlan) (userId n : Nat)
    (ucr : List Nat) (d : DailyPlan)
    (hwf : WF plan)
    (hfind : findDay plan n = some d)
    (howner : plan.userId = userId)
    (hunl : d.isUnlocked = true)
    (hres : allResourcesCompleted d ucr = true)
    (hquiz : quizCompleted d = true)
    (hint : interviewCompleted d = true)
    (hlast : n = plan.durationDays)
    (hpos : 1 ≤ plan.durationDays)
    (hothers : ∀ d' ∈ plan.days, d'.dayNumber ≠ n → d'.isCompleted = true) :
    ∃ plan', DailyPlanService.completeDailyPlan plan n userId ucr = .ok plan' ∧
      plan'.isActive = false ∧ plan'.progress = 100 := by
  have hdn : d.dayNumber = n := by
    unfold findDay at hfind
    simpa using List.find?_some hfind
  have hcd : completeDays plan d = setDayCompleted plan.days n := by
    unfold completeDays
    rw [hdn, hlast, if_neg (by omega)]
  have hcount : (completeDays plan d).countP (fun x => x.isCompleted) = plan.durationDays := by
    rw [hcd]
    have hall : ∀ x ∈ setDayCompleted plan.days n, (fun x => x.isCompleted) x = true := by
      intro x hx
      unfold setDayCompleted at hx
      obtain ⟨y, hy, rfl⟩ := List.mem_map.mp hx
      by_cases hyn : (y.dayNumber == n) = true
      · simp [hyn]
      · have : y.dayNumber ≠ n := by simpa using hyn
        simp [hyn, hothers y hy this]
    calc (setDayCompleted plan.days n).countP (fun x => x.isCompleted)
        = (setDayCompleted plan.days n).length := List.countP_eq_length.mpr hall
      _ = plan.days.length := by unfold setDayCompleted; simp
      _ = plan.durationDays := hwf.days_length
  refine ⟨_, completeDailyPlan_ok hfind howner hunl hres hquiz hint, ?_, ?_⟩
  · show decide ((completeDays plan d).countP (fun x => x.isCompleted) < plan.durationDays)
        = false
    rw [hcount]
    simp
  · show progressPercent ((completeDays plan d).countP (fun x => x.isCompleted))
        plan.durationDays = 100
    rw [hcount]
    exact progressPercent_total plan.durationDays hpos

/-- C4 witness: completing day 3 of `planRecomplete` (days 1 and 2 already
completed) deactivates the plan with progress 100. -/
theorem completeDailyPlan_last_day_witness :
    ∃ plan', DailyPlanService.completeDailyPlan planRecomplete 3 0 [] = .ok plan' ∧
      plan'.isActive = false ∧ plan'.progress = 100 :=
  completeDailyPlan_last_day planRecomplete 0 3 [] (freshDay 3 true)
    (by decide) (by decide) (by decide) (by decide) (by decide) (by decide) (by decide)
    (by decide) (by decide) (by decide)

/-! ### C8: duration changes -/

/-- C8: growing the duration from D1 to D2 appends exactly the locked,
uncompleted rows D1+1..D2 and keeps every existing row unchanged;
shrinking to D2 keeps exactly the rows with dayNumber ≤ D2, unchanged. -/
theorem handleDurationChange_spec (plan : LearningPlan)
    (upd : LearningPlanService.PlanUpdate) (newDuration : Nat)
    (hwf : WF plan) :
    (plan.durationDays < newDuration →
      (LearningPlanService.handleDurationChange plan plan.durationDays newDuration
          upd).days.map DailyPlan.dayNumber = List.range' 1 newDuration ∧
      (∀ d ∈ (LearningPlanService.handleDurationChange plan plan.durationDays newDuration
          upd).days, plan.durationDays < d.dayNumber →
        d.isUnlocked = false ∧ d.isCompleted = false) ∧
      (∀ m, m ≤ plan.durationDays →
        findDay (LearningPlanService.handleDurationChange plan plan.durationDays newDuration
          upd) m = findDay plan m)) ∧
    (newDuration < plan.durationDays →
      (LearningPlanService.handleDurationChange plan plan.durationDays newDuration
          upd).days = plan.days.filter (fun d => !(decide (newDuration < d.dayNumber))) ∧
      (∀ m, m ≤ newDuration →
        findDay (LearningPlanService.handleDurationChange plan plan.durationDays newDuration
          upd) m = findDay plan m)) := by
  constructor
  · intro hlt
    have hdays : (LearningPlanService.handleDurationChange plan plan.durationDays newDuration
        upd).days = plan.days ++ (List.range (newDuration - plan.durationDays)).map
          (fun i => freshDay (plan.durationDays + 1 + i) false) := by
      unfold LearningPlanService.handleDurationChange LearningPlanService.applyUpdate
      rw [if_pos hlt]
    refine ⟨?_, ?_, ?_⟩
    · rw [hdays, List.map_append, hwf, List.map_map]
      have hcomp : (DailyPlan.dayNumber ∘ fun i => freshDay (plan.durationDays + 1 + i) false)
          = fun i => plan.durationDays + 1 + i := by
        funext i
        rfl
      rw [hcomp, ← List.range'_eq_map_range (plan.durationDays + 1) _]
      have happ := List.range'_append 1 plan.durationDays (newDuration - plan.durationDays) 1
      simp only [Nat.one_mul] at happ
      rw [Nat.add_comm 1 plan.durationDays] at happ
      rw [happ]
      congr 1
      omega
    · intro d hd hgt
      rw [hdays] at hd
      rcases List.mem_append.mp hd with hmem | hmem
      · have := hwf.dayNumber_le hmem
        omega
      · obtain ⟨i, _, rfl⟩ := List.mem_map.mp hmem
        exact ⟨rfl, rfl⟩
    · intro m hm
      unfold findDay
      rw [hdays, List.find?_append]
      have hr : ((List.range (newDuration - plan.durationDays)).map
          (fun i => freshDay (plan.durationDays + 1 + i) false)).find?
          (fun x => x.dayNumber == m) = none := by
        rw [List.find?_eq_none]
        intro x hx
        obtain ⟨i, _, rfl⟩ := List.mem_map.mp hx
        simp [freshDay]
        omega
      rw [hr, Option.or_none]
  · intro hlt
    have hdays : (LearningPlanService.handleDurationChange plan plan.durationDays newDuration
        upd).days = plan.days.filter (fun d => !(decide (newDuration < d.dayNumber))) := by
      unfold LearningPlanService.handleDurationChange LearningPlanService.applyUpdate
      rw [if_neg (by omega), if_pos hlt]
    refine ⟨hdays, ?_⟩
    intro m hm
    unfold findDay
    rw [hdays]
    apply find?_filter_of_imp
    intro x hx
    have : x.dayNumber = m := by simpa using hx
    simp
    omega

/-- C8 witness: a fresh two-day plan grown to four days. -/
theorem handleDurationChange_spec_witness :
    (2 < 4 →
      (LearningPlanService.handleDurationChange (LearningPlanService.createLearningPlan 2 2) 2 4
          ⟨some 4, none⟩).days.map DailyPlan.dayNumber = List.range' 1 4 ∧
      (∀ d ∈ (LearningPlanService.handleDurationChange (LearningPlanService.createLearningPlan 2 2)
          2 4 ⟨some 4, none⟩).days, 2 < d.dayNumber →
        d.isUnlocked = false ∧ d.isCompleted = false) ∧
      (∀ m, m ≤ 2 →
        findDay (LearningPlanService.handleDurationChange (LearningPlanService.createLearningPlan 2 2)
          2 4 ⟨some 4, none⟩) m = findDay (LearningPlanService.createLearningPlan 2 2) m)) ∧
    (4 < 2 →
      (LearningPlanService.handleDurationChange (LearningPlanService.createLearningPlan 2 2) 2 4
          ⟨some 4, none⟩).days =
        (LearningPlanService.createLearningPlan 2 2).days.filter
          (fun d => !(decide (4 < d.dayNumber))) ∧
      (∀ m, m ≤ 4 →
        findDay (LearningPlanService.handleDurationChange (LearningPlanService.createLearningPlan 2 2)
          2 4 ⟨some 4, none⟩) m = findDay (LearningPlanService.createLearningPlan 2 2) m)) :=
  handleDurationChange_spec (LearningPlanService.createLearningPlan 2 2) ⟨some 4, none⟩ 4
    (by decide)

end Placementor
